import Mathlib

/-!
Verification of the Rust-API projection stage (`rust_generator.rs` of the
`cpp_to_rust_generator` crate).  The definitions below are a shallow embedding
of the functions of that file; strings are Lean `String`s, Rust `Vec`/`HashMap`
are Lean lists (the hash map is modelled as an insertion-ordered association
list keyed by the map's key).  The word-splitting and case-conversion helpers
live in the crate's `common::string_utils` module, which is not part of the
sources verified here; they are modelled from the specification ("split into
word tokens at case/digit boundaries", "word-joined lower-case", "type case")
and validated against the unit tests embedded in `rust_generator.rs`
(`remove_prefix_and_convert_case_test`, `calculate_rust_name_test`,
`prepare_enum_values_test_*`).
-/

namespace CppToRust

/-- Modelled from the spec: a word boundary inside an identifier.  A new word
starts at an upper-case letter that follows a lower-case letter, at an
upper-case letter that is followed by a lower-case letter, and at a digit that
follows a letter (a digit run keeps following upper-case letters attached, as
in the "3D" of "Qt3DWindow"). -/
def wordBoundary (p c : Char) (rest : List Char) : Bool :=
  (c.isUpper && p.isLower)
  || (c.isUpper && p.isUpper && (match rest with
      | n :: _ => n.isLower
      | [] => false))
  || (c.isDigit && p.isAlpha)

/-- Modelled from the spec: accumulator-based word splitter.  `acc` is the
current word, reversed; underscores separate words and are dropped. -/
def wordsGo : List Char → List Char → List (List Char)
  | acc, [] => if acc.isEmpty then [] else [acc.reverse]
  | acc, c :: rest =>
    if c = '_' then
      (if acc.isEmpty then [] else [acc.reverse]) ++ wordsGo [] rest
    else
      match acc with
      | [] => wordsGo [c] rest
      | p :: _ =>
        if wordBoundary p c rest then acc.reverse :: wordsGo [c] rest
        else wordsGo (c :: acc) rest

/-- Modelled from the spec: `WordIterator::new(s).collect()` — the list of word
tokens of an identifier. -/
def splitWords (s : String) : List String :=
  (wordsGo [] s.data).map (fun w => String.mk w)

/-- Lower-cases every character of a word. -/
def toLowerWord (w : String) : String :=
  String.mk (w.data.map Char.toLower)

/-- True if every character of the word is a decimal digit. -/
def isAllDigits (w : String) : Bool :=
  w.data.all Char.isDigit

/-- Modelled from the spec: joins the tail words of a snake-case rendering;
a separator is omitted before a purely numeric word ("myFunc1" renders as
"my_func1" while "Qt3DWindow" renders as "qt_3d_window"). -/
def snakeTail : List String → String
  | [] => ""
  | w :: ws => (if isAllDigits w then "" else "_") ++ toLowerWord w ++ snakeTail ws

/-- Modelled from the spec: word-joined lower-case ("snake case") rendering of
a word list. -/
def wordsToSnakeCase : List String → String
  | [] => ""
  | w :: ws => toLowerWord w ++ snakeTail ws

/-- Upper-cases the first character of a word, keeping the rest. -/
def capitalizeWord (w : String) : String :=
  match w.data with
  | [] => ""
  | c :: cs => String.mk (c.toUpper :: cs)

/-- Modelled from the spec: type-case ("class case") rendering of a word
list. -/
def wordsToClassCase (ws : List String) : String :=
  String.join (ws.map capitalizeWord)

/-- Modelled from the spec: `s.to_snake_case()` on a raw string. -/
def toSnakeCase (s : String) : String :=
  wordsToSnakeCase (splitWords s)

/-- Modelled from the spec: `s.to_class_case()` on a raw string. -/
def toClassCase (s : String) : String :=
  wordsToClassCase (splitWords s)

/-- Mode of case conversion (`enum Case` of `rust_generator.rs`). -/
inductive Case where
  | Class : Case
  | Snake : Case

/-- Renders a word list in the requested case. -/
def convertCase (case : Case) (parts : List String) : String :=
  match case with
  | Case.Snake => wordsToSnakeCase parts
  | Case.Class => wordsToClassCase parts

/-- Embeds `remove_prefix_and_convert_case`: removes a prefix appearing in
`prefixesToRemove` from the word list of `s` if it is the first word and not
the only one and the second word does not start with a digit, then renders the
words in the requested case. -/
def remove_prefix_and_convert_case (s : String) (case : Case)
    (prefixesToRemove : List String) : String :=
  let parts := splitWords s
  let parts :=
    match parts with
    | p0 :: p1 :: rest =>
      if (match p1.data.head? with
          | some c => c.isDigit
          | none => false) then
        p0 :: p1 :: rest
      else if prefixesToRemove.any (fun p => p = p0) then p1 :: rest
      else p0 :: p1 :: rest
    | other => other
  convertCase case parts

/-- Embeds `include_file_to_module_name`: strips everything from the first
dot and converts to snake case with prefix removal. -/
def include_file_to_module_name (includeFile : String)
    (prefixesToRemove : List String) : String :=
  let r := match includeFile.data.findIdx? (fun c => c = '.') with
    | some i => String.mk (includeFile.data.take i)
    | none => includeFile
  remove_prefix_and_convert_case r Case.Snake prefixesToRemove

/-- Embeds `sanitize_rust_identifier`: appends an underscore to Rust reserved
words. -/
def sanitize_rust_identifier (name : String) : String :=
  let reserved : List String :=
    ["abstract", "alignof", "as", "become", "box", "break", "const",
     "continue", "crate", "do", "else", "enum", "extern", "false",
     "final", "fn", "for", "if", "impl", "in", "let", "loop",
     "macro", "match", "mod", "move", "mut", "offsetof", "override",
     "priv", "proc", "pub", "pure", "ref", "return", "Self", "self",
     "sizeof", "static", "struct", "super", "trait", "true", "type",
     "typeof", "unsafe", "unsized", "use", "virtual", "where", "while",
     "yield"]
  if reserved.any (fun r => r = name) then name ++ "_" else name

/-- Documentation item attached to a generated enum variant
(`CppEnumValueDocItem` of `rust_info.rs`, as used by `prepare_enum_values`). -/
structure CppEnumValueDocItem where
  variantName : String
  doc : Option String
  deriving DecidableEq, Repr

/-- One value of a parsed C++ enumeration (`CppEnumValue` of `cpp_data.rs`,
with the fields used by `prepare_enum_values`). -/
structure CppEnumValue where
  name : String
  value : Int
  doc : Option String
  deriving DecidableEq, Repr

/-- One variant of a generated Rust enum (`RustEnumValue` of `rust_info.rs`). -/
structure RustEnumValue where
  name : String
  value : Int
  cppDocs : List CppEnumValueDocItem
  isDummy : Bool
  deriving DecidableEq, Repr

/-- One step of the `value_to_variant` map construction in
`prepare_enum_values`: an occupied entry receives the new name as an extra
documentation alias, a vacant entry receives a fresh variant named by the
class-cased, sanitized C++ name. -/
def insertEnumValue (m : List (Int × RustEnumValue)) (variant : CppEnumValue) :
    List (Int × RustEnumValue) :=
  let docItem : CppEnumValueDocItem := { variantName := variant.name, doc := variant.doc }
  if m.any (fun p => p.1 = variant.value) then
    m.map (fun p =>
      if p.1 = variant.value then
        (p.1, { p.2 with cppDocs := p.2.cppDocs ++ [docItem] })
      else p)
  else
    m ++ [(variant.value,
      { name := sanitize_rust_identifier (toClassCase variant.name),
        value := variant.value,
        cppDocs := [docItem],
        isDummy := false })]

/-- The `value_to_variant` map of `prepare_enum_values`, modelled as an
insertion-ordered association list keyed by the C++ integer value. -/
def valueToVariant (values : List CppEnumValue) : List (Int × RustEnumValue) :=
  values.foldl insertEnumValue []

/-- Fuel-based unfolding of the `common_prefix` shrink loop; the fuel is an
upper bound on the number of drop steps, so `cp.length` is always enough. -/
def shrinkPreAux : Nat → List String → List String → List String
  | 0, cp, _ => cp
  | n + 1, cp, item =>
    if cp.isEmpty || cp.isPrefixOf item then cp
    else shrinkPreAux n cp.dropLast item

/-- Embeds the `while` loop of `prepare_enum_values` that shrinks
`common_prefix`: the last word is dropped until the accumulator is a leading
word sequence of `item` (or is empty). -/
def shrinkToCommonPre (cp item : List String) : List String :=
  shrinkPreAux cp.length cp item

/-- Embeds the `while` loop of `prepare_enum_values` that shrinks
`common_suffix`: the first word is dropped until the accumulator is a trailing
word sequence of `item` (or is empty). -/
def shrinkToCommonSuf : List String → List String → List String
  | [], _ => []
  | w :: cs, item =>
    if (w :: cs).isSuffixOf item then w :: cs else shrinkToCommonSuf cs item

/-- The word lists of the (already case-converted) variant names, the
`all_words` vector of `prepare_enum_values`. -/
def enumAllWords (result : List RustEnumValue) : List (List String) :=
  result.map (fun x => splitWords x.name)

/-- The `common_prefix` computed by `prepare_enum_values`: the first word
list shrunk against every word list in turn. -/
def codeCommonPre (allWords : List (List String)) : List String :=
  match allWords with
  | [] => []
  | hd :: _ => allWords.foldl shrinkToCommonPre hd

/-- The `common_suffix` computed by `prepare_enum_values`: the first word
list shrunk against every word list in turn. -/
def codeCommonSuf (allWords : List (List String)) : List String :=
  match allWords with
  | [] => []
  | hd :: _ => allWords.foldl shrinkToCommonSuf hd

/-- The stripped short name of one variant: the Rust slice
`item[common_prefix.len()..item.len() - common_suffix.len()]`, joined.  The
Rust slice panics when the two ranges overlap; the truncated subtraction
used here yields an empty name instead — theorems below carry a no-overlap
hypothesis wherever the distinction matters. -/
def strippedName (cp cs : List String) (item : List String) : String :=
  String.join ((item.take (item.length - cs.length)).drop cp.length)

/-- The abort condition of the short-name optimization, applied to one
stripped name: true when the name starts with a digit or is empty. -/
def digitOrEmpty (nm : String) : Bool :=
  match nm.data.head? with
  | some ch => ch.isDigit
  | none => true

/-- The `new_names` vector of `prepare_enum_values`: every variant's word
list with the common leading and trailing word sequences stripped. -/
def newNamesOf (result : List RustEnumValue) : List String :=
  (enumAllWords result).map
    (strippedName (codeCommonPre (enumAllWords result)) (codeCommonSuf (enumAllWords result)))

/-- The short-name optimization of `prepare_enum_values` applied to the
deduplicated variant list: strips the common leading and trailing word
sequences from every variant name, aborting (keeping the names unchanged)
when any stripped name would be empty or start with a digit. -/
def applyShortNames (result : List RustEnumValue) : List RustEnumValue :=
  let newNames := newNamesOf result
  if newNames.any digitOrEmpty then result
  else result.zipWith (fun r nm => { r with name := sanitize_rust_identifier nm }) newNames

/-- Stable insertion used by the final `sort_by(|a, b| a.value.cmp(&b.value))`. -/
def insertSortedByValue (x : RustEnumValue) : List RustEnumValue → List RustEnumValue
  | [] => [x]
  | y :: ys => if x.value ≤ y.value then x :: y :: ys else y :: insertSortedByValue x ys

/-- Stable sort by variant value, modelling the final `sort_by` of
`prepare_enum_values`. -/
def sortByValue : List RustEnumValue → List RustEnumValue
  | [] => []
  | x :: xs => insertSortedByValue x (sortByValue xs)

/-- The deduplicated variants in insertion order, before the dummy variant
and the short-name optimization are applied. -/
def dedupedVariants (values : List CppEnumValue) : List RustEnumValue :=
  (valueToVariant values).map (fun p => p.2)

/-- The deduplicated variants with the `_Invalid` dummy variant appended
when exactly one distinct value survives; the dummy sits at value 0, or at
value 1 when 0 is taken. -/
def withDummy (values : List CppEnumValue) : List RustEnumValue :=
  if (dedupedVariants values).length = 1 then
    dedupedVariants values
      ++ [{ name := "_Invalid",
            value := if (valueToVariant values).any (fun p => p.1 = 0) then 1 else 0,
            cppDocs := [], isDummy := true }]
  else dedupedVariants values

/-- Embeds `prepare_enum_values`: deduplicates variants by integer value
(first-seen name wins, later same-value names become documentation aliases),
appends a dummy variant when exactly one value survives, attempts the
short-name optimization when more than one survives, and sorts ascending by
value. -/
def prepare_enum_values (values : List CppEnumValue) : List RustEnumValue :=
  sortByValue
    (if (valueToVariant values).length > 1 then applyShortNames (withDummy values)
     else withDummy values)

/-- A Rust identifier path (`RustName` of `rust_type.rs`), modelled by its
list of parts. -/
structure RustName where
  parts : List String
  deriving DecidableEq, Repr

/-- Embeds `calc_top_module_names`: maps every include file to the Rust name
`[crate_name, include_file_to_module_name(header)]`; the first occurrence of a
header wins.  The set of include files (combined in the source from
`cpp_data.all_include_files()` and the FFI headers) is taken as an input
list. -/
def calc_top_module_names (crateName : String) (prefixesToRemove : List String)
    (headers : List String) : List (String × RustName) :=
  headers.foldl
    (fun result header =>
      if result.any (fun p => p.1 = header) then result
      else
        result ++ [(header,
          ⟨[crateName, include_file_to_module_name header prefixesToRemove]⟩)])
    []

/-- Splits a C++ qualified name at `::` separators, like `name.split("::")`. -/
def splitNsGo : List Char → List Char → List String
  | acc, [] => [String.mk acc.reverse]
  | acc, ':' :: ':' :: rest => String.mk acc.reverse :: splitNsGo [] rest
  | acc, c :: rest => splitNsGo (c :: acc) rest

/-- The list of `::`-separated components of a C++ qualified name. -/
def splitNamespaces (s : String) : List String :=
  splitNsGo [] s.data

/-- Embeds `calculate_rust_name` (the operator branch is not modelled: every
claim verified below passes `None` for the operator).  Returns `none` where
the source returns an error: an empty name or an include file without a top
level module. -/
def calculate_rust_name (topModuleNames : List (String × RustName))
    (prefixesToRemove : List String) (filteredNamespaces : List String)
    (name : String) (includeFile : String) (isFunction : Bool) : Option RustName :=
  let splitParts := splitNamespaces name
  match splitParts.getLast? with
  | none => none
  | some originalLastPart =>
    let lastPart := remove_prefix_and_convert_case originalLastPart
        (if isFunction then Case.Snake else Case.Class) prefixesToRemove
    match (topModuleNames.find? (fun p => p.1 = includeFile)).map (fun p => p.2) with
    | none => none
    | some moduleName =>
      let parts := moduleName.parts ++ (if includeFile = "slots" then ["raw"] else [])
      let parts := splitParts.dropLast.foldl
        (fun parts part =>
          if filteredNamespaces.contains part then parts
          else parts ++ [remove_prefix_and_convert_case part Case.Snake prefixesToRemove])
        parts
      let parts :=
        if parts.length > 2 ∧ parts.get! 1 = parts.get! 2 then
          parts.take 2 ++ parts.drop 3
        else parts
      some ⟨parts ++ [lastPart]⟩

/-- Indirection of a Rust type (`RustTypeIndirection` of `rust_type.rs`;
modelled from the spec with the constructors the verified claims need). -/
inductive RustTypeIndirection where
  | noInd : RustTypeIndirection
  | ptrInd : RustTypeIndirection
  | refInd : RustTypeIndirection
  | ptrPtrInd : RustTypeIndirection
  deriving DecidableEq, Repr

/-- Modelled from the spec: the Rust-API-facing type of an argument or return
value, with the observations used by `rust_generator.rs` — indirection,
const-ness and the validity-scope (lifetime) parameter. -/
structure RustApiType where
  base : String
  indirection : RustTypeIndirection
  isConst : Bool
  lifetime : Option String
  deriving DecidableEq, Repr

/-- Modelled from the spec: `RustType::is_ref` — the type is a reference. -/
def RustApiType.is_ref (t : RustApiType) : Bool :=
  t.indirection = RustTypeIndirection.refInd

/-- Modelled from the spec: `RustType::with_lifetime` — attaches a
validity-scope parameter. -/
def RustApiType.with_lifetime (t : RustApiType) (l : String) : RustApiType :=
  { t with lifetime := some l }

/-- One projected method argument (`RustMethodArgument` of `rust_info.rs`):
its Rust name, its Rust-API type and the original C++ type (the latter is all
`can_be_overloaded_with` inspects of the argument type, so it is modelled as
an opaque string). -/
structure MethodArgument where
  name : String
  rustApiType : RustApiType
  cppType : String
  deriving DecidableEq, Repr

/-- Modelled after the fresh-lifetime loop of `generate_rust_single_method`:
walks the arguments with the `next_lifetime_num` counter and attaches
`"l<n>"` to every reference argument that has no lifetime yet. -/
def assignFreshAux (n : Nat) : List MethodArgument → List MethodArgument
  | [] => []
  | arg :: rest =>
    if arg.rustApiType.is_ref && arg.rustApiType.lifetime.isNone then
      { arg with rustApiType := arg.rustApiType.with_lifetime ("l" ++ toString n) }
        :: assignFreshAux (n + 1) rest
    else arg :: assignFreshAux n rest

/-- The final value of the `next_lifetime_num` counter: the number of
reference arguments without a lifetime. -/
def countFreshRefs (args : List MethodArgument) : Nat :=
  args.countP (fun arg => arg.rustApiType.is_ref && arg.rustApiType.lifetime.isNone)

/-- Result of the return-lifetime block of `generate_rust_single_method`.
`staticWarning` records whether the "Assuming static lifetime of return
value" diagnostic was logged. -/
structure LifetimeResult where
  arguments : List MethodArgument
  returnType : RustApiType
  staticWarning : Bool
  deriving DecidableEq, Repr

/-- Embeds the return-lifetime block of `generate_rust_single_method`
(lines 994–1034 of `rust_generator.rs`): when the return type is a reference
without a lifetime, borrow the lifetime of the first argument that carries
one; otherwise give every lifetime-less reference argument a fresh lifetime
and tie the return to `"l0"`, falling back to `"static"` (with a logged
warning) when there is no reference argument to borrow from. -/
def applyReturnLifetime (args : List MethodArgument) (returnType : RustApiType) :
    LifetimeResult :=
  if returnType.is_ref && returnType.lifetime.isNone then
    match args.find? (fun arg => arg.rustApiType.lifetime.isSome) with
    | some arg =>
      { arguments := args,
        returnType :=
          match arg.rustApiType.lifetime with
          | some l => returnType.with_lifetime l
          | none => returnType,
        staticWarning := false }
    | none =>
      let newArgs := assignFreshAux 0 args
      let n := countFreshRefs args
      { arguments := newArgs,
        returnType := returnType.with_lifetime (if n = 0 then "static" else "l0"),
        staticWarning := n == 0 }
  else
    { arguments := args, returnType := returnType, staticWarning := false }

/-- Kind of the `self` argument of a projected method
(`RustMethodSelfArgKind` of `rust_info.rs`). -/
inductive RustMethodSelfArgKind where
  | noSelf : RustMethodSelfArgKind
  | value : RustMethodSelfArgKind
  | constRef : RustMethodSelfArgKind
  | mutRef : RustMethodSelfArgKind
  deriving DecidableEq, Repr

/-- A single-variant Rust method before overloading (`RustSingleMethod` of
`rust_generator.rs`), with the fields inspected by the overload resolver.
The scope and documentation fields play no role in bucketing and are
omitted; `name` keeps distinct methods distinguishable. -/
structure RustSingleMethod where
  name : String
  isUnsafe : Bool
  arguments : List MethodArgument
  deriving DecidableEq, Repr

/-- Embeds `RustSingleMethod::self_arg_kind`: classifies the first argument
when it is named `self`, failing on pointer-like `self` types. -/
def self_arg_kind (m : RustSingleMethod) : Except String RustMethodSelfArgKind :=
  match m.arguments.head? with
  | some arg =>
    if arg.name = "self" then
      match arg.rustApiType.indirection with
      | RustTypeIndirection.refInd =>
        Except.ok (if arg.rustApiType.isConst then RustMethodSelfArgKind.constRef
                   else RustMethodSelfArgKind.mutRef)
      | RustTypeIndirection.noInd => Except.ok RustMethodSelfArgKind.value
      | _ => Except.error "invalid self argument type"
    else Except.ok RustMethodSelfArgKind.noSelf
  | none => Except.ok RustMethodSelfArgKind.noSelf

/-- Modelled from the spec: `CppType::can_be_the_same_as` — mutual
substitutability of two source types, modelled as equality of the opaque
C++ type representation. -/
def canBeTheSameAs (a b : String) : Bool :=
  a == b

/-- Embeds `RustSingleMethod::can_be_overloaded_with`: two methods may share
an emulated-overload bucket when their safety flags and receiver kinds agree
and they are not mutually substitutable (same argument count with pairwise
interchangeable source types). -/
def can_be_overloaded_with (m other : RustSingleMethod) :
    Except String Bool :=
  if m.isUnsafe ≠ other.isUnsafe then Except.ok false
  else
    match self_arg_kind m with
    | Except.error e => Except.error e
    | Except.ok k1 =>
      match self_arg_kind other with
      | Except.error e => Except.error e
      | Except.ok k2 =>
        if k1 ≠ k2 then Except.ok false
        else if m.arguments.length = other.arguments.length ∧
            (m.arguments.zip other.arguments).all (fun p =>
              canBeTheSameAs p.1.cppType p.2.cppType &&
                !(p.1.name == "allocation_place_marker" &&
                  p.2.name == "allocation_place_marker" && p.1 != p.2)) = true then
          Except.ok false
        else Except.ok true

/-- One step of the bucket loop of `overload_functions`: the method joins the
first bucket whose members can all be overloaded with it, or starts a new
bucket at the end.  The source unwraps the `Result`; an error is treated here
as non-membership (the claims below only apply it to methods whose receiver
kind is well-formed). -/
def addToBuckets (buckets : List (List RustSingleMethod)) (m : RustSingleMethod) :
    List (List RustSingleMethod) :=
  match buckets with
  | [] => [[m]]
  | b :: bs =>
    if b.all (fun x =>
        match can_be_overloaded_with x m with
        | Except.ok true => true
        | _ => false) then
      (b ++ [m]) :: bs
    else b :: addToBuckets bs m

/-- Embeds the bucket-forming loop of `overload_functions`: splits sibling
methods of one target name into overload buckets. -/
def overloadBuckets (methods : List RustSingleMethod) :
    List (List RustSingleMethod) :=
  methods.foldl addToBuckets []

/-- Owning class of a C++ method (`CppTypeClassBase`), with opaque template
arguments. -/
structure CppClassType where
  name : String
  templateArguments : Option (List String)
  deriving DecidableEq, Repr

/-- A C++ method with its FFI data (`CppAndFfiMethod`), restricted to the
fields the class-membership filter of `RustGeneratorInputData::run`
inspects. -/
structure CppAndFfiMethodLite where
  shortText : String
  classMembership : Option CppClassType
  deriving DecidableEq, Repr

/-- A processed C++ type entry (`RustProcessedTypeInfo` of `rust_info.rs`),
with the fields used by the class-membership filter and the
template-instantiation naming loop. -/
structure RustProcessedTypeInfo where
  cppName : String
  cppTemplateArguments : Option (List String)
  rustName : RustName
  sizeConstName : Option String
  deriving DecidableEq, Repr

/-- The filter predicate of the class-membership filter of
`RustGeneratorInputData::run`: a free function is always kept, a class
method only when its owning class type is among the processed types. -/
def keepsMethod (processedTypes : List RustProcessedTypeInfo)
    (m : CppAndFfiMethodLite) : Bool :=
  match m.classMembership with
  | none => true
  | some info =>
    processedTypes.any (fun t =>
      t.cppName == info.name && t.cppTemplateArguments == info.templateArguments)

/-- Embeds the class-membership filter of `RustGeneratorInputData::run`
(lines 296–315): a method whose owning class type is not among the processed
types is dropped and logged.  The first component is the retained list, the
second the dropped (logged) methods. -/
def filterClassMethods (processedTypes : List RustProcessedTypeInfo)
    (methods : List CppAndFfiMethodLite) :
    List CppAndFfiMethodLite × List CppAndFfiMethodLite :=
  methods.partition (keepsMethod processedTypes)

/-- Allocation place of a C++ type (`CppTypeAllocationPlace` of
`cpp_data.rs`). -/
inductive CppTypeAllocationPlace where
  | stack : CppTypeAllocationPlace
  | heap : CppTypeAllocationPlace
  deriving DecidableEq, Repr

/-- Embeds `to_upper_case_words` of the string utilities, as used by
`size_const_name`.  Modelled from the spec like the other case
conversions. -/
def toUpperCaseWords (s : String) : String :=
  String.intercalate "_" ((splitWords s).map (fun w => String.mk (w.data.map Char.toUpper)))

/-- Embeds `size_const_name`: the name of the generated buffer-size
constant. -/
def size_const_name (typeName : RustName) : String :=
  String.intercalate "_" (typeName.parts.map toUpperCaseWords)

/-- State of one pass of the template-instantiation naming loop of
`calc_processed_types`. -/
structure TemplatePassState where
  result : List RustProcessedTypeInfo
  pending : List RustProcessedTypeInfo
  allocDropped : List RustProcessedTypeInfo
  anySuccess : Bool
  deriving Repr

/-- One iteration of the `for` body inside a pass of the
template-instantiation naming loop: one pending entry is attempted against
the registry built so far.  `finalName` abstracts `template_final_name`
(whose success depends on the argument captions being resolvable against the
registry) and `allocPlace` abstracts `cpp_data.type_allocation_place`; both
live outside the verified sources.  An entry whose allocation place cannot
be determined is logged and dropped (`continue` in the source) without
counting as progress. -/
def templateStep (finalName : List RustProcessedTypeInfo → RustProcessedTypeInfo → Option RustName)
    (allocPlace : String → Except String CppTypeAllocationPlace)
    (st : TemplatePassState) (r : RustProcessedTypeInfo) : TemplatePassState :=
  match finalName st.result r with
  | some name =>
    match allocPlace r.cppName with
    | Except.error _ => { st with allocDropped := st.allocDropped ++ [r] }
    | Except.ok place =>
      let r :=
        { r with
          rustName := name,
          sizeConstName :=
            match place with
            | CppTypeAllocationPlace.stack => some (size_const_name name)
            | CppTypeAllocationPlace.heap => none }
      { st with result := st.result ++ [r], anySuccess := true }
  | none => { st with pending := st.pending ++ [r] }

/-- One full pass over the pending entries, folding `templateStep` from the
empty pass state. -/
def templatePass (finalName : List RustProcessedTypeInfo → RustProcessedTypeInfo → Option RustName)
    (allocPlace : String → Except String CppTypeAllocationPlace)
    (result : List RustProcessedTypeInfo) (pending : List RustProcessedTypeInfo) :
    TemplatePassState :=
  pending.foldl (templateStep finalName allocPlace)
    { result := result, pending := [], allocDropped := [], anySuccess := false }

/-- Combined outcome of the template-instantiation naming phase.
`registry` is what the surrounding `calc_processed_types` returns for this
phase; `failedLog` lists the entries enumerated by the
"Failed to generate Rust names for template types" error log and dropped
from the registry; `allocDropped` lists the entries dropped with a
"Can't process type" log. -/
structure TemplatePhaseResult where
  registry : Except String (List RustProcessedTypeInfo)
  failedLog : List RustProcessedTypeInfo
  allocDropped : List RustProcessedTypeInfo
  deriving Repr

/-- Fuel-based unfolding of the `while !unnamed_items.is_empty()` loop of
`calc_processed_types`.  A pass that makes progress recurses; a pass that
makes none logs the still-pending entries and stops — re-checking, as the
source does, that `finalName` still fails for each of them (the source
returns an error otherwise; that branch is proved unreachable below).
Each productive pass removes at least one pending entry, so
`pending.length + 1` fuel always suffices. -/
def templateLoopAux (finalName : List RustProcessedTypeInfo → RustProcessedTypeInfo → Option RustName)
    (allocPlace : String → Except String CppTypeAllocationPlace) :
    Nat → List RustProcessedTypeInfo → List RustProcessedTypeInfo →
    List RustProcessedTypeInfo → TemplatePhaseResult
  | 0, result, pending, allocAcc =>
    { registry := Except.ok result, failedLog := pending, allocDropped := allocAcc }
  | fuel + 1, result, pending, allocAcc =>
    if pending.isEmpty then
      { registry := Except.ok result, failedLog := [], allocDropped := allocAcc }
    else
      let st := templatePass finalName allocPlace result pending
      if st.anySuccess then
        templateLoopAux finalName allocPlace fuel st.result st.pending
          (allocAcc ++ st.allocDropped)
      else if st.pending.any (fun r => (finalName st.result r).isSome) then
        { registry := Except.error "template_final_name must return Err at this stage",
          failedLog := st.pending, allocDropped := allocAcc ++ st.allocDropped }
      else
        { registry := Except.ok st.result, failedLog := st.pending,
          allocDropped := allocAcc ++ st.allocDropped }

/-- Embeds the template-instantiation naming phase of `calc_processed_types`
(lines 1942–1992 of `rust_generator.rs`): iterate passes to a fixed point,
then fall through — the function keeps running and returns its registry with
`Ok` even when entries remain unresolved. -/
def templatePhase (finalName : List RustProcessedTypeInfo → RustProcessedTypeInfo → Option RustName)
    (allocPlace : String → Except String CppTypeAllocationPlace)
    (result : List RustProcessedTypeInfo) (pending : List RustProcessedTypeInfo) :
    TemplatePhaseResult :=
  templateLoopAux finalName allocPlace (pending.length + 1) result pending []

/-- The prefix list of the Qt generator configuration, used by the unit tests
of `rust_generator.rs`. -/
def qtPrefixes : List String :=
  ["q", "Q", "Qt"]

/-- A non-reference argument fixture with the given Rust name. -/
def intArg (nm : String) : MethodArgument :=
  { name := nm,
    rustApiType :=
      { base := "i32", indirection := RustTypeIndirection.noInd,
        isConst := false, lifetime := none },
    cppType := "int" }

/-- A reference argument fixture without a lifetime. -/
def refArg (nm : String) : MethodArgument :=
  { name := nm,
    rustApiType :=
      { base := "T", indirection := RustTypeIndirection.refInd,
        isConst := true, lifetime := none },
    cppType := "T const &" }

/-- Fixture: a free method with one `int` argument named `x`. -/
def methodA : RustSingleMethod :=
  { name := "a", isUnsafe := false, arguments := [intArg "x"] }

/-- Fixture: a free method with one `int` argument named `y`. -/
def methodB : RustSingleMethod :=
  { name := "b", isUnsafe := false, arguments := [intArg "y"] }

/-- Fixture: a free method with no arguments. -/
def methodC : RustSingleMethod :=
  { name := "c", isUnsafe := false, arguments := [] }

/-- Fixture: a pending template-instantiation entry whose argument captions
never resolve. -/
def pendingVec : RustProcessedTypeInfo :=
  { cppName := "QVector", cppTemplateArguments := some ["int"],
    rustName := ⟨["qt_core", "vector", "Vector"]⟩, sizeConstName := none }

/-- The expected lifetimes of the argument list after the fresh-lifetime
loop, as a function of the reference mask alone: the `i`-th reference
argument (counting from `n`) receives `"l<i>"`, non-references receive
nothing. -/
def lifetimeSpecList : Nat → List Bool → List (Option String)
  | _, [] => []
  | n, true :: rest => some ("l" ++ toString n) :: lifetimeSpecList (n + 1) rest
  | n, false :: rest => none :: lifetimeSpecList n rest

/-- Fixture: a reference return type without a lifetime. -/
def refReturnType : RustApiType :=
  { base := "T", indirection := RustTypeIndirection.refInd,
    isConst := true, lifetime := none }

/-- Fixture: a free function without class membership. -/
def methFree : CppAndFfiMethodLite :=
  { shortText := "int freeFn()", classMembership := none }

/-- Fixture: a method of the registered class `QVector<int>`. -/
def methGood : CppAndFfiMethodLite :=
  { shortText := "int QVector::size() const",
    classMembership := some { name := "QVector", templateArguments := some ["int"] } }

/-- Fixture: a method of an unregistered class. -/
def methBad : CppAndFfiMethodLite :=
  { shortText := "void QBad::f()",
    classMembership := some { name := "QBad", templateArguments := none } }

end CppToRust

namespace CppToRust

example : splitWords "OneTwo" = ["One", "Two"] := by decide
example : splitWords "QDirIterator" = ["Q", "Dir", "Iterator"] := by decide
example : splitWords "Qt3DWindow" = ["Qt", "3D", "Window"] := by decide
example : splitWords "myFunc1" = ["my", "Func", "1"] := by decide
example : splitWords "other_var2" = ["other", "var", "2"] := by decide
example : toSnakeCase "Qt3DWindow" = "qt_3d_window" := by decide
example : toClassCase "var1" = "Var1" := by decide

example :
    (prepare_enum_values
      [{ name := "var1", value := 1, doc := none },
       { name := "other_var2", value := 2, doc := none }]).map (fun r => r.name)
      = ["Var1", "OtherVar2"] := by decide

example :
    (prepare_enum_values
      [{ name := "var1", value := 1, doc := none },
       { name := "other_var2", value := 2, doc := none },
       { name := "other_var_dup", value := 2, doc := none }]).map (fun r => r.name)
      = ["Var1", "OtherVar2"] := by decide

example :
    (prepare_enum_values
      [{ name := "OptionGood", value := 1, doc := none },
       { name := "OptionBad", value := 2, doc := none },
       { name := "OptionNecessaryEvil", value := 3, doc := none }]).map (fun r => r.name)
      = ["Good", "Bad", "NecessaryEvil"] := by decide

example :
    (prepare_enum_values
      [{ name := "BestFriend", value := 1, doc := none },
       { name := "GoodFriend", value := 2, doc := none },
       { name := "NoFriend", value := 3, doc := none }]).map (fun r => r.name)
      = ["Best", "Good", "No"] := by decide

example :
    (prepare_enum_values
      [{ name := "Base32", value := 1, doc := none },
       { name := "Base64", value := 2, doc := none }]).map (fun r => r.name)
      = ["Base32", "Base64"] := by decide

example :
    (prepare_enum_values
      [{ name := "NonRecursive", value := 1, doc := none },
       { name := "Recursive", value := 2, doc := none }]).map (fun r => r.name)
      = ["NonRecursive", "Recursive"] := by decide

example :
    (prepare_enum_values
      [{ name := "PreciseTimer", value := 1, doc := none },
       { name := "CoarseTimer", value := 2, doc := none }]).map (fun r => r.name)
      = ["Precise", "Coarse"] := by decide

example :
    remove_prefix_and_convert_case "OneTwo" Case.Class [] = "OneTwo" := by decide
example :
    remove_prefix_and_convert_case "OneTwo" Case.Snake qtPrefixes = "one_two" := by decide
example :
    remove_prefix_and_convert_case "QDirIterator" Case.Snake [] = "q_dir_iterator" := by
  decide
example :
    remove_prefix_and_convert_case "Qt3DWindow" Case.Snake [] = "qt_3d_window" := by decide

example :
    calc_top_module_names "qt_core" qtPrefixes ["QtGlobal"]
      = [("QtGlobal", ⟨["qt_core", "global"]⟩)] := by decide

example :
    calculate_rust_name (calc_top_module_names "qt_core" qtPrefixes ["QPointF"])
      qtPrefixes [] "QPointF" "QPointF" false
      = some ⟨["qt_core", "point_f", "PointF"]⟩ := by decide

example :
    calculate_rust_name (calc_top_module_names "qt_core" qtPrefixes ["QStringList"])
      qtPrefixes [] "QStringList::Iterator" "QStringList" false
      = some ⟨["qt_core", "string_list", "Iterator"]⟩ := by decide

example :
    calculate_rust_name (calc_top_module_names "qt_core" qtPrefixes ["QString"])
      qtPrefixes [] "QStringList::Iterator" "QString" false
      = some ⟨["qt_core", "string", "string_list", "Iterator"]⟩ := by decide

example :
    calculate_rust_name (calc_top_module_names "qt_core" qtPrefixes ["QRect"])
      qtPrefixes [] "ns::func1" "QRect" true
      = some ⟨["qt_core", "rect", "ns", "func1"]⟩ := by decide

example : overloadBuckets [methodA, methodB, methodC]
    = [[methodA, methodC], [methodB]] := by decide

example : overloadBuckets [methodB, methodA, methodC]
    = [[methodB, methodC], [methodA]] := by decide

example :
    (templatePhase (fun _ _ => none) (fun _ => Except.ok CppTypeAllocationPlace.heap)
      [] [pendingVec]).failedLog = [pendingVec] := by decide

/-! Helper lemmas. -/

theorem insertSortedByValue_perm (x : RustEnumValue) (l : List RustEnumValue) :
    (insertSortedByValue x l).Perm (x :: l) := by
  induction l with
  | nil => exact List.Perm.refl _
  | cons y ys ih =>
    simp only [insertSortedByValue]
    split
    · exact List.Perm.refl _
    · exact (List.Perm.cons y ih).trans (List.Perm.swap x y ys)

theorem sortByValue_perm (l : List RustEnumValue) : (sortByValue l).Perm l := by
  induction l with
  | nil => exact List.Perm.refl _
  | cons x xs ih =>
    exact (insertSortedByValue_perm x (sortByValue xs)).trans (List.Perm.cons x ih)

theorem addToBuckets_flatten_perm (bs : List (List RustSingleMethod))
    (m : RustSingleMethod) :
    (addToBuckets bs m).flatten.Perm (m :: bs.flatten) := by
  induction bs with
  | nil => simp [addToBuckets]
  | cons b bs ih =>
    simp only [addToBuckets]
    split
    · have h : ((b ++ [m]) :: bs).flatten = b ++ (m :: bs.flatten) := by simp
      rw [h, List.flatten_cons]
      exact List.perm_middle
    · rw [List.flatten_cons, List.flatten_cons]
      exact (List.Perm.append_left b ih).trans List.perm_middle

theorem foldl_addToBuckets_flatten_perm (ms : List RustSingleMethod)
    (acc : List (List RustSingleMethod)) :
    (ms.foldl addToBuckets acc).flatten.Perm (ms ++ acc.flatten) := by
  induction ms generalizing acc with
  | nil => simp
  | cons m ms ih =>
    simp only [List.foldl_cons, List.cons_append]
    refine (ih (addToBuckets acc m)).trans ?_
    refine (List.Perm.append_left ms (addToBuckets_flatten_perm acc m)).trans ?_
    exact List.perm_middle

/-! Theorems for the frozen claims. -/

/-- C1: the claim states that the projection's result does not depend on the
iteration order of the input methods.  Counterexample: three sibling methods
`a(int x)`, `b(int y)`, `c()` sharing a target name.  Presented as
`[a, b, c]`, the overload resolver groups `a` with `c`; presented as the
permutation `[b, a, c]`, it groups `b` with `c` instead — `a` and `c` no
longer share a bucket, so the emitted overload structure differs. -/
theorem c1_order_dependence_counterexample :
    (overloadBuckets [methodA, methodB, methodC]
        = [[methodA, methodC], [methodB]])
    ∧ (overloadBuckets [methodB, methodA, methodC]
        = [[methodB, methodC], [methodA]])
    ∧ ([methodA, methodB, methodC] : List RustSingleMethod).Perm
        [methodB, methodA, methodC]
    ∧ (∃ b ∈ overloadBuckets [methodA, methodB, methodC],
        methodA ∈ b ∧ methodC ∈ b)
    ∧ (∀ b ∈ overloadBuckets [methodB, methodA, methodC],
        ¬(methodA ∈ b ∧ methodC ∈ b)) := by
  refine ⟨by decide, by decide, by decide, by decide, by decide⟩

/-- C1 (amended): the projection is a pure function of the ordered input, so
running it twice on an identical input yields an identical result; the
result is however not independent of the method iteration order — permuting
the methods can change the overload grouping — although bucketing never
loses or duplicates a method: the buckets always partition the input
methods. -/
theorem c1_buckets_partition_methods (ms : List RustSingleMethod) :
    (overloadBuckets ms).flatten.Perm ms := by
  simpa using foldl_addToBuckets_flatten_perm ms []

/-- C4: the claim states that two methods differing only in argument count
never merge into one overload bucket.  Counterexample: the methods `c()` and
`a(int x)` (same safety flag, same receiver kind, different argument counts)
are mutually overloadable and the resolver places them in one bucket. -/
theorem c4_count_mismatch_counterexample :
    methodC.isUnsafe = methodA.isUnsafe
    ∧ self_arg_kind methodC = Except.ok RustMethodSelfArgKind.noSelf
    ∧ self_arg_kind methodA = Except.ok RustMethodSelfArgKind.noSelf
    ∧ methodC.arguments.length ≠ methodA.arguments.length
    ∧ can_be_overloaded_with methodC methodA = Except.ok true
    ∧ overloadBuckets [methodC, methodA] = [[methodC, methodA]] := by
  refine ⟨rfl, rfl, rfl, by decide, rfl, rfl⟩

/-- C4 (amended): two methods with the same safety flag and the same
receiver kind but different argument counts are always mutually overloadable
and are merged into one overload bucket; the argument-count mismatch only
precludes their being considered substitutable, a test the resolver applies
solely at equal counts. -/
theorem c4_count_mismatch_merges (m1 m2 : RustSingleMethod)
    (k : RustMethodSelfArgKind)
    (h1 : self_arg_kind m1 = Except.ok k) (h2 : self_arg_kind m2 = Except.ok k)
    (h3 : m1.isUnsafe = m2.isUnsafe)
    (h4 : m1.arguments.length ≠ m2.arguments.length) :
    can_be_overloaded_with m1 m2 = Except.ok true
    ∧ overloadBuckets [m1, m2] = [[m1, m2]] := by
  have hover : can_be_overloaded_with m1 m2 = Except.ok true := by
    unfold can_be_overloaded_with
    rw [h1, h2, h3]
    simp [h4]
  exact ⟨hover, by simp [overloadBuckets, addToBuckets, hover]⟩

/-- Witness for the C4 amended theorem at the concrete methods `c()` and
`a(int x)`. -/
theorem c4_count_mismatch_merges_witness :
    can_be_overloaded_with methodC methodA = Except.ok true
    ∧ overloadBuckets [methodC, methodA] = [[methodC, methodA]] :=
  c4_count_mismatch_merges methodC methodA RustMethodSelfArgKind.noSelf
    rfl rfl rfl (by decide)

/-- C8: the callable name `"myFunc1"` declared in unit `"QtGlobal"` with the
prefix list `["q", "Q", "Qt"]` and crate `"qt_core"` resolves to the path
`["qt_core", "global", "my_func1"]`; the unit name is prefix-stripped and
snake-cased into the module segment; and the prefix is stripped from a name
only when it has more than one word and the second word does not begin with
a digit (one-word names and digit-led second words are left to the plain
case conversion). -/
theorem c8_callable_name_resolution :
    calculate_rust_name (calc_top_module_names "qt_core" qtPrefixes ["QtGlobal"])
        qtPrefixes [] "myFunc1" "QtGlobal" true
      = some ⟨["qt_core", "global", "my_func1"]⟩
    ∧ include_file_to_module_name "QtGlobal" qtPrefixes = "global"
    ∧ remove_prefix_and_convert_case "myFunc1" Case.Snake qtPrefixes = "my_func1"
    ∧ (∀ (s : String) (c : Case) (pre : List String),
        (splitWords s).length ≤ 1 →
        remove_prefix_and_convert_case s c pre = convertCase c (splitWords s))
    ∧ (∀ (s : String) (c : Case) (pre : List String) (p0 p1 : String)
        (rest : List String) (d : Char),
        splitWords s = p0 :: p1 :: rest → p1.data.head? = some d →
        d.isDigit = true →
        remove_prefix_and_convert_case s c pre = convertCase c (splitWords s)) := by
  refine ⟨by decide, by decide, by decide, ?_, ?_⟩
  · intro s c pre h
    unfold remove_prefix_and_convert_case
    rcases hsw : splitWords s with _ | ⟨p0, _ | ⟨p1, rest⟩⟩
    · rfl
    · rfl
    · rw [hsw] at h
      simp at h
  · intro s c pre p0 p1 rest d hsw hhead hdigit
    unfold remove_prefix_and_convert_case
    rw [hsw]
    simp [hhead, hdigit]

/-- Witness for the general clauses of the C8 theorem: the digit-led second
word of `"Qt3DWindow"` blocks the prefix strip. -/
theorem c8_callable_name_resolution_witness :
    remove_prefix_and_convert_case "Qt3DWindow" Case.Snake qtPrefixes
      = convertCase Case.Snake (splitWords "Qt3DWindow") :=
  c8_callable_name_resolution.2.2.2.2 "Qt3DWindow" Case.Snake qtPrefixes
    "Qt" "3D" ["Window"] '3' (by decide) (by decide) (by decide)

/-- C2: the claim states that when a pass of the template-instantiation
naming loop finalizes nothing while entries remain pending, the run aborts
with an error.  Counterexample: a single pending entry whose final name
never resolves — the loop logs it in the failure diagnostic, drops it from
the registry, and the phase still returns `Ok`, so the run continues. -/
theorem c2_no_progress_returns_ok :
    (templatePhase (fun _ _ => none)
        (fun _ => Except.ok CppTypeAllocationPlace.heap) [] [pendingVec]).registry
      = Except.ok []
    ∧ (templatePhase (fun _ _ => none)
        (fun _ => Except.ok CppTypeAllocationPlace.heap) [] [pendingVec]).failedLog
      = [pendingVec]
    ∧ (templatePhase (fun _ _ => none)
        (fun _ => Except.ok CppTypeAllocationPlace.heap) [] [pendingVec]).allocDropped
      = [] :=
  ⟨rfl, rfl, rfl⟩

theorem templateStep_mono (fn : List RustProcessedTypeInfo → RustProcessedTypeInfo → Option RustName)
    (ap : String → Except String CppTypeAllocationPlace)
    (st : TemplatePassState) (r : RustProcessedTypeInfo)
    (h : st.anySuccess = true) : (templateStep fn ap st r).anySuccess = true := by
  unfold templateStep
  cases hf : fn st.result r with
  | none => simpa using h
  | some name =>
    cases hap : ap r.cppName with
    | error e => simpa using h
    | ok place => rfl

theorem foldl_templateStep_mono (fn : List RustProcessedTypeInfo → RustProcessedTypeInfo → Option RustName)
    (ap : String → Except String CppTypeAllocationPlace)
    (l : List RustProcessedTypeInfo) :
    ∀ st : TemplatePassState, st.anySuccess = true →
      (l.foldl (templateStep fn ap) st).anySuccess = true := by
  induction l with
  | nil => intro st h; simpa using h
  | cons r rest ih =>
    intro st h
    exact ih _ (templateStep_mono fn ap st r h)

theorem templateStep_account (fn : List RustProcessedTypeInfo → RustProcessedTypeInfo → Option RustName)
    (ap : String → Except String CppTypeAllocationPlace)
    (st : TemplatePassState) (r : RustProcessedTypeInfo) :
    (((templateStep fn ap st r).result.map (fun x => x.cppName) : Multiset String)
        + ↑((templateStep fn ap st r).pending.map (fun x => x.cppName))
        + ↑((templateStep fn ap st r).allocDropped.map (fun x => x.cppName)))
      = ↑(st.result.map (fun x => x.cppName)) + ↑(st.pending.map (fun x => x.cppName))
          + ↑(st.allocDropped.map (fun x => x.cppName)) + {r.cppName} := by
  unfold templateStep
  cases hf : fn st.result r with
  | none =>
    dsimp only
    simp only [List.map_append, List.map_cons, List.map_nil, ← Multiset.coe_add,
      ← Multiset.cons_coe, ← Multiset.singleton_add]
    abel
  | some name =>
    cases hap : ap r.cppName with
    | error e =>
      dsimp only
      simp only [List.map_append, List.map_cons, List.map_nil, ← Multiset.coe_add,
        ← Multiset.cons_coe, ← Multiset.singleton_add]
      abel
    | ok place =>
      dsimp only
      simp only [List.map_append, List.map_cons, List.map_nil, ← Multiset.coe_add,
        ← Multiset.cons_coe, ← Multiset.singleton_add]
      abel

theorem templatePass_account (fn : List RustProcessedTypeInfo → RustProcessedTypeInfo → Option RustName)
    (ap : String → Except String CppTypeAllocationPlace)
    (pending : List RustProcessedTypeInfo) :
    ∀ st : TemplatePassState,
      (((pending.foldl (templateStep fn ap) st).result.map (fun x => x.cppName) : Multiset String)
          + ↑((pending.foldl (templateStep fn ap) st).pending.map (fun x => x.cppName))
          + ↑((pending.foldl (templateStep fn ap) st).allocDropped.map (fun x => x.cppName)))
        = ↑(st.result.map (fun x => x.cppName)) + ↑(st.pending.map (fun x => x.cppName))
            + ↑(st.allocDropped.map (fun x => x.cppName))
            + ↑(pending.map (fun x => x.cppName)) := by
  induction pending with
  | nil => intro st; simp
  | cons r rest ih =>
    intro st
    simp only [List.foldl_cons]
    rw [ih (templateStep fn ap st r), templateStep_account fn ap st r]
    simp only [List.map_cons, ← Multiset.cons_coe, ← Multiset.singleton_add]
    abel

theorem templatePass_no_success (fn : List RustProcessedTypeInfo → RustProcessedTypeInfo → Option RustName)
    (ap : String → Except String CppTypeAllocationPlace)
    (pending : List RustProcessedTypeInfo) :
    ∀ st : TemplatePassState,
      (pending.foldl (templateStep fn ap) st).anySuccess = false →
      (pending.foldl (templateStep fn ap) st).result = st.result ∧
      (∀ r ∈ (pending.foldl (templateStep fn ap) st).pending,
        r ∈ st.pending ∨ fn st.result r = none) := by
  induction pending with
  | nil => exact fun st _ => ⟨rfl, fun r hr => Or.inl hr⟩
  | cons r rest ih =>
    intro st h
    simp only [List.foldl_cons] at h ⊢
    cases hf : fn st.result r with
    | some name =>
      cases hap : ap r.cppName with
      | ok place =>
        exfalso
        have hmono : (rest.foldl (templateStep fn ap) (templateStep fn ap st r)).anySuccess
            = true := by
          apply foldl_templateStep_mono
          unfold templateStep
          rw [hf, hap]
        rw [h] at hmono
        exact Bool.false_ne_true hmono
      | error e =>
        have hst : templateStep fn ap st r
            = { st with allocDropped := st.allocDropped ++ [r] } := by
          unfold templateStep
          rw [hf, hap]
        rw [hst] at h ⊢
        obtain ⟨h1, h2⟩ := ih _ h
        refine ⟨by simpa using h1, fun x hx => ?_⟩
        rcases h2 x hx with hx' | hx'
        · exact Or.inl (by simpa using hx')
        · exact Or.inr (by simpa using hx')
    | none =>
      have hst : templateStep fn ap st r = { st with pending := st.pending ++ [r] } := by
        unfold templateStep
        rw [hf]
      rw [hst] at h ⊢
      obtain ⟨h1, h2⟩ := ih _ h
      refine ⟨by simpa using h1, fun x hx => ?_⟩
      rcases h2 x hx with hx' | hx'
      · have hx'' : x ∈ st.pending ∨ x = r := by simpa using hx'
        rcases hx'' with hmem | hxr
        · exact Or.inl hmem
        · exact Or.inr (hxr ▸ hf)
      · exact Or.inr (by simpa using hx')

theorem templateLoopAux_spec (fn : List RustProcessedTypeInfo → RustProcessedTypeInfo → Option RustName)
    (ap : String → Except String CppTypeAllocationPlace) :
    ∀ (fuel : Nat) (result pending allocAcc : List RustProcessedTypeInfo),
      ∃ reg, (templateLoopAux fn ap fuel result pending allocAcc).registry = Except.ok reg
        ∧ ((reg.map (fun x => x.cppName) : Multiset String)
            + ↑((templateLoopAux fn ap fuel result pending allocAcc).failedLog.map
                (fun x => x.cppName))
            + ↑((templateLoopAux fn ap fuel result pending allocAcc).allocDropped.map
                (fun x => x.cppName)))
          = ↑(result.map (fun x => x.cppName)) + ↑(pending.map (fun x => x.cppName))
              + ↑(allocAcc.map (fun x => x.cppName)) := by
  intro fuel
  induction fuel with
  | zero =>
    intro result pending allocAcc
    exact ⟨result, rfl, rfl⟩
  | succ fuel ih =>
    intro result pending allocAcc
    unfold templateLoopAux
    by_cases hp : pending.isEmpty
    · rw [if_pos hp]
      have hpe : pending = [] := by simpa using hp
      subst hpe
      exact ⟨result, rfl, rfl⟩
    · rw [if_neg hp]
      have hacc : ((templatePass fn ap result pending).result.map
            (fun x => x.cppName) : Multiset String)
          + ↑((templatePass fn ap result pending).pending.map (fun x => x.cppName))
          + ↑((templatePass fn ap result pending).allocDropped.map (fun x => x.cppName))
          = ↑(result.map (fun x => x.cppName)) + ↑(pending.map (fun x => x.cppName)) := by
        have h := templatePass_account fn ap pending
          { result := result, pending := [], allocDropped := [], anySuccess := false }
        simpa [templatePass] using h
      by_cases hs : (templatePass fn ap result pending).anySuccess = true
      · rw [if_pos hs]
        obtain ⟨reg, hreg, hsum⟩ := ih (templatePass fn ap result pending).result
          (templatePass fn ap result pending).pending
          (allocAcc ++ (templatePass fn ap result pending).allocDropped)
        refine ⟨reg, hreg, ?_⟩
        rw [hsum]
        simp only [List.map_append, ← Multiset.coe_add]
        rw [← hacc]
        abel
      · rw [if_neg hs]
        have hs' : (templatePass fn ap result pending).anySuccess = false := by
          simpa using hs
        obtain ⟨h1, h2⟩ := templatePass_no_success fn ap pending
          { result := result, pending := [], allocDropped := [], anySuccess := false } hs'
        have hcond : ((templatePass fn ap result pending).pending.any
            (fun r => (fn (templatePass fn ap result pending).result r).isSome)) = false := by
          rw [List.any_eq_false]
          intro r hr
          have h2' := h2 r (by simpa [templatePass] using hr)
          rcases h2' with hmem | hnone
          · simp at hmem
          · have h1' : (templatePass fn ap result pending).result = result := by
              simpa [templatePass] using h1
            rw [h1']
            simp [show fn result r = none from hnone]
        rw [if_neg (by simp [hcond])]
        refine ⟨(templatePass fn ap result pending).result, rfl, ?_⟩
        simp only [List.map_append, ← Multiset.coe_add]
        rw [← hacc]
        abel

/-- C2 (amended): when an iteration pass of the template-instantiation
naming loop finalizes no pending entry while entries remain, the loop stops,
the still-pending entries are enumerated in an error-level diagnostic and
excluded from the registry, and the phase returns success rather than
aborting the run; no pending entry is silently lost — every input entry ends
up in the returned registry, in the enumerated failure diagnostic, or in the
allocation-place skip log. -/
theorem c2_template_phase_returns_ok (fn : List RustProcessedTypeInfo → RustProcessedTypeInfo → Option RustName)
    (ap : String → Except String CppTypeAllocationPlace)
    (base pending : List RustProcessedTypeInfo) :
    ∃ reg, (templatePhase fn ap base pending).registry = Except.ok reg
      ∧ ((reg.map (fun x => x.cppName) : Multiset String)
          + ↑((templatePhase fn ap base pending).failedLog.map (fun x => x.cppName))
          + ↑((templatePhase fn ap base pending).allocDropped.map (fun x => x.cppName)))
        = ↑(base.map (fun x => x.cppName)) + ↑(pending.map (fun x => x.cppName)) := by
  obtain ⟨reg, hreg, hsum⟩ := templateLoopAux_spec fn ap (pending.length + 1) base pending []
  exact ⟨reg, hreg, by simpa using hsum⟩

/-- C5: every method retained by the class-membership filter either is a
free function or references a processed (registered) class type; every input
method is either retained or dropped into the log (none vanishes); and every
dropped method references a class type absent from the registry. -/
theorem c5_unregistered_class_dropped (processedTypes : List RustProcessedTypeInfo)
    (methods : List CppAndFfiMethodLite) :
    (∀ m ∈ (filterClassMethods processedTypes methods).1,
        m.classMembership = none ∨
        ∃ info, m.classMembership = some info ∧
          ∃ t ∈ processedTypes, t.cppName = info.name ∧
            t.cppTemplateArguments = info.templateArguments)
    ∧ (∀ m ∈ methods,
        m ∈ (filterClassMethods processedTypes methods).1 ∨
        m ∈ (filterClassMethods processedTypes methods).2)
    ∧ (∀ m ∈ (filterClassMethods processedTypes methods).2,
        ∃ info, m.classMembership = some info ∧
          ∀ t ∈ processedTypes, ¬(t.cppName = info.name ∧
            t.cppTemplateArguments = info.templateArguments)) := by
  unfold filterClassMethods
  rw [List.partition_eq_filter_filter]
  refine ⟨?_, ?_, ?_⟩
  · intro m hm
    have hp : keepsMethod processedTypes m = true := (List.mem_filter.mp hm).2
    unfold keepsMethod at hp
    cases hcm : m.classMembership with
    | none => exact Or.inl rfl
    | some info =>
      rw [hcm] at hp
      obtain ⟨t, ht, hb⟩ := List.any_eq_true.mp hp
      refine Or.inr ⟨info, rfl, t, ht, ?_⟩
      simpa using hb
  · intro m hm
    by_cases hp : keepsMethod processedTypes m = true
    · exact Or.inl (List.mem_filter.mpr ⟨hm, hp⟩)
    · refine Or.inr (List.mem_filter.mpr ⟨hm, ?_⟩)
      simpa using hp
  · intro m hm
    have hp : keepsMethod processedTypes m = false := by
      simpa using (List.mem_filter.mp hm).2
    unfold keepsMethod at hp
    cases hcm : m.classMembership with
    | none => rw [hcm] at hp; simp at hp
    | some info =>
      rw [hcm] at hp
      refine ⟨info, rfl, fun t ht hc => ?_⟩
      have := List.any_eq_false.mp hp t ht
      simp [hc.1, hc.2] at this

/-- Witness for the C5 theorem: the retained method `QVector::size` of the
registered class `QVector<int>` references a processed type. -/
theorem c5_unregistered_class_dropped_witness :
    methGood.classMembership = none ∨
    ∃ info, methGood.classMembership = some info ∧
      ∃ t ∈ [pendingVec], t.cppName = info.name ∧
        t.cppTemplateArguments = info.templateArguments :=
  (c5_unregistered_class_dropped [pendingVec] [methFree, methGood, methBad]).1
    methGood (by decide)

theorem assignFreshAux_names (n : Nat) (args : List MethodArgument) :
    (assignFreshAux n args).map (fun a => a.name) = args.map (fun a => a.name) := by
  induction args generalizing n with
  | nil => rfl
  | cons a rest ih =>
    unfold assignFreshAux
    by_cases h : (a.rustApiType.is_ref && a.rustApiType.lifetime.isNone) = true
    · rw [if_pos h]
      simp [ih]
    · rw [if_neg h]
      simp [ih]

theorem assignFreshAux_lifetimes (n : Nat) (args : List MethodArgument)
    (h : ∀ a ∈ args, a.rustApiType.lifetime = none) :
    (assignFreshAux n args).map (fun a => a.rustApiType.lifetime)
      = lifetimeSpecList n (args.map (fun a => a.rustApiType.is_ref)) := by
  induction args generalizing n with
  | nil => rfl
  | cons a rest ih =>
    have ha : a.rustApiType.lifetime = none := h a (List.mem_cons_self a rest)
    have hrest : ∀ x ∈ rest, x.rustApiType.lifetime = none :=
      fun x hx => h x (List.mem_cons_of_mem a hx)
    unfold assignFreshAux
    by_cases href : a.rustApiType.is_ref = true
    · rw [if_pos (by simp [href, ha])]
      simp [href, lifetimeSpecList, RustApiType.with_lifetime, ih (n + 1) hrest]
    · rw [if_neg (by simp [href])]
      have href' : a.rustApiType.is_ref = false := by simpa using href
      simp [href', lifetimeSpecList, ha, ih n hrest]

/-- C3: for a projected method whose return type is a reference without a
lifetime: when some argument already carries a lifetime the return borrows
the lifetime of the first such argument (arguments untouched, no warning);
when no argument carries one, every reference argument receives a fresh
lifetime `"l0", "l1", …` in order, and the return ties to `"l0"` if a
reference argument exists — otherwise the return falls back to the
`"static"` lifetime and the diagnostic warning is logged. -/
theorem c3_reference_return_lifetimes (args : List MethodArgument)
    (ret : RustApiType) (h1 : ret.is_ref = true) (h2 : ret.lifetime = none) :
    (∀ arg, args.find? (fun a => a.rustApiType.lifetime.isSome) = some arg →
      (applyReturnLifetime args ret).returnType.lifetime = arg.rustApiType.lifetime ∧
      (applyReturnLifetime args ret).arguments = args ∧
      (applyReturnLifetime args ret).staticWarning = false)
    ∧ ((∀ a ∈ args, a.rustApiType.lifetime = none) →
      ((applyReturnLifetime args ret).arguments.map (fun a => a.rustApiType.lifetime)
          = lifetimeSpecList 0 (args.map (fun a => a.rustApiType.is_ref))
        ∧ (applyReturnLifetime args ret).arguments.map (fun a => a.name)
          = args.map (fun a => a.name))
      ∧ (args.any (fun a => a.rustApiType.is_ref) = true →
          (applyReturnLifetime args ret).returnType.lifetime = some "l0" ∧
          (applyReturnLifetime args ret).staticWarning = false)
      ∧ (args.all (fun a => !a.rustApiType.is_ref) = true →
          (applyReturnLifetime args ret).returnType.lifetime = some "static" ∧
          (applyReturnLifetime args ret).staticWarning = true)) := by
  have hcond : (ret.is_ref && ret.lifetime.isNone) = true := by simp [h1, h2]
  constructor
  · intro arg harg
    unfold applyReturnLifetime
    rw [hcond, if_pos rfl, harg]
    have hsome : arg.rustApiType.lifetime.isSome = true := by
      simpa using List.find?_some harg
    obtain ⟨l, hl⟩ := Option.isSome_iff_exists.mp hsome
    exact ⟨by simp [hl, RustApiType.with_lifetime], rfl, rfl⟩
  · intro hnone
    have hfind : args.find? (fun a => a.rustApiType.lifetime.isSome) = none := by
      rw [List.find?_eq_none]
      intro a ha
      simp [hnone a ha]
    unfold applyReturnLifetime
    rw [hcond, if_pos rfl, hfind]
    refine ⟨⟨assignFreshAux_lifetimes 0 args hnone, assignFreshAux_names 0 args⟩, ?_, ?_⟩
    · intro hany
      obtain ⟨x, hx, hpx⟩ := List.any_eq_true.mp hany
      have hkpos : 0 < countFreshRefs args := by
        rw [countFreshRefs, List.countP_pos_iff]
        exact ⟨x, hx, by simp [hpx, hnone x hx]⟩
      have hkne : countFreshRefs args ≠ 0 := Nat.pos_iff_ne_zero.mp hkpos
      constructor
      · simp [RustApiType.with_lifetime, hkne]
      · simp [hkne]
    · intro hall
      have hzero : countFreshRefs args = 0 := by
        rw [countFreshRefs, List.countP_eq_zero]
        intro a ha
        have := List.all_eq_true.mp hall a ha
        simp only [Bool.not_eq_true'] at this
        simp [this]
      constructor
      · simp [RustApiType.with_lifetime, hzero]
      · simp [hzero]

/-- Witness for the C3 theorem: two lifetime-less reference arguments receive
`"l0"` and `"l1"` and the reference return borrows `"l0"`. -/
theorem c3_reference_return_lifetimes_witness :
    (applyReturnLifetime [refArg "x", intArg "y", refArg "z"]
        refReturnType).returnType.lifetime = some "l0"
    ∧ (applyReturnLifetime [refArg "x", intArg "y", refArg "z"]
        refReturnType).staticWarning = false :=
  ((c3_reference_return_lifetimes [refArg "x", intArg "y", refArg "z"]
      refReturnType (by decide) (by decide)).2 (by decide)).2.1 (by decide)

/-- C6: an enumeration whose values deduplicate to exactly one distinct
value is emitted with exactly two variants: the surviving one and the
synthetic `_Invalid` variant at value 0, or at value 1 when 0 is the
surviving value. -/
theorem c6_single_value_enum (values : List CppEnumValue) (k : Int)
    (v : RustEnumValue) (h : valueToVariant values = [(k, v)]) :
    (prepare_enum_values values).Perm
      [v, { name := "_Invalid", value := if k = 0 then 1 else 0,
            cppDocs := [], isDummy := true }]
    ∧ (prepare_enum_values values).length = 2 := by
  have hperm : (prepare_enum_values values).Perm
      [v, { name := "_Invalid", value := if k = 0 then 1 else 0,
            cppDocs := [], isDummy := true }] := by
    unfold prepare_enum_values withDummy dedupedVariants
    rw [h]
    by_cases hk : k = 0
    · simp [hk]
      exact sortByValue_perm _
    · simp [hk]
      exact sortByValue_perm _
  exact ⟨hperm, by simpa using hperm.length_eq⟩

/-- Witness for the C6 theorem at the one-value enumeration
`{ Spades = 5 }`. -/
theorem c6_single_value_enum_witness :
    (prepare_enum_values [{ name := "Spades", value := 5, doc := none }]).length
      = 2 :=
  (c6_single_value_enum [{ name := "Spades", value := 5, doc := none }] 5
    { name := "Spades", value := 5,
      cppDocs := [{ variantName := "Spades", doc := none }], isDummy := false }
    (by decide)).2

theorem shrinkPreAux_pre (fuel : Nat) (cp item : List String) :
    shrinkPreAux fuel cp item <+: cp := by
  induction fuel generalizing cp with
  | zero => exact List.prefix_refl _
  | succ fuel ih =>
    unfold shrinkPreAux
    by_cases h : (cp.isEmpty || cp.isPrefixOf item) = true
    · rw [if_pos h]
    · rw [if_neg h]
      exact (ih cp.dropLast).trans (List.dropLast_prefix cp)

theorem shrinkPreAux_pre_item (fuel : Nat) (cp item : List String)
    (hf : cp.length ≤ fuel) : shrinkPreAux fuel cp item <+: item := by
  induction fuel generalizing cp with
  | zero =>
    have hcp : cp = [] := List.length_eq_zero.mp (Nat.le_zero.mp hf)
    subst hcp
    exact List.nil_prefix
  | succ fuel ih =>
    unfold shrinkPreAux
    by_cases h : (cp.isEmpty || cp.isPrefixOf item) = true
    · rw [if_pos h]
      have h' : cp = [] ∨ cp <+: item := by
        simpa [List.isEmpty_iff, List.isPrefixOf_iff_prefix] using h
      rcases h' with he | hpr
      · subst he
        exact List.nil_prefix
      · exact hpr
    · rw [if_neg h]
      apply ih
      have hne : cp ≠ [] := by
        intro hcp
        apply h
        simp [hcp]
      have : cp.length ≠ 0 := by simpa using hne
      simp only [List.length_dropLast]
      omega

theorem shrinkPreAux_greatest (fuel : Nat) (cp item p : List String)
    (hp : p <+: cp) (hitem : p <+: item) (hf : cp.length ≤ fuel) :
    p <+: shrinkPreAux fuel cp item := by
  induction fuel generalizing cp with
  | zero => simpa [shrinkPreAux] using hp
  | succ fuel ih =>
    unfold shrinkPreAux
    by_cases h : (cp.isEmpty || cp.isPrefixOf item) = true
    · rw [if_pos h]
      exact hp
    · rw [if_neg h]
      have hne : cp ≠ [] := by
        intro hcp
        apply h
        simp [hcp]
      have hnpr : ¬(cp <+: item) := by
        intro hc
        apply h
        simp [List.isPrefixOf_iff_prefix.mpr hc]
      have hpne : p ≠ cp := by
        intro he
        exact hnpr (he ▸ hitem)
      have hplt : p.length < cp.length := by
        rcases Nat.lt_or_ge p.length cp.length with hlt | hge
        · exact hlt
        · exact absurd (hp.eq_of_length (Nat.le_antisymm hp.length_le hge)) hpne
      apply ih cp.dropLast
      · rw [List.prefix_iff_eq_take] at hp ⊢
        rw [List.dropLast_eq_take, List.take_take]
        have hmin : min p.length (cp.length - 1) = p.length := by omega
        rw [hmin]
        exact hp
      · have : cp.length ≠ 0 := by simpa using hne
        simp only [List.length_dropLast]
        omega

theorem shrinkToCommonPre_pre (cp item : List String) :
    shrinkToCommonPre cp item <+: cp :=
  shrinkPreAux_pre cp.length cp item

theorem shrinkToCommonPre_pre_item (cp item : List String) :
    shrinkToCommonPre cp item <+: item :=
  shrinkPreAux_pre_item cp.length cp item (Nat.le_refl _)

theorem shrinkToCommonPre_greatest (cp item p : List String)
    (hp : p <+: cp) (hitem : p <+: item) : p <+: shrinkToCommonPre cp item :=
  shrinkPreAux_greatest cp.length cp item p hp hitem (Nat.le_refl _)

theorem shrinkToCommonSuf_suf (cs item : List String) :
    shrinkToCommonSuf cs item <:+ cs := by
  induction cs with
  | nil => exact List.suffix_refl _
  | cons w cs ih =>
    unfold shrinkToCommonSuf
    by_cases h : (w :: cs).isSuffixOf item = true
    · rw [if_pos h]
    · rw [if_neg h]
      exact ih.trans (List.suffix_cons w cs)

theorem shrinkToCommonSuf_suf_item (cs item : List String) :
    shrinkToCommonSuf cs item <:+ item := by
  induction cs with
  | nil => exact List.nil_suffix
  | cons w cs ih =>
    unfold shrinkToCommonSuf
    by_cases h : (w :: cs).isSuffixOf item = true
    · rw [if_pos h]
      exact List.isSuffixOf_iff_suffix.mp h
    · rw [if_neg h]
      exact ih

theorem shrinkToCommonSuf_greatest (cs item p : List String)
    (hp : p <:+ cs) (hitem : p <:+ item) : p <:+ shrinkToCommonSuf cs item := by
  induction cs with
  | nil => simpa [shrinkToCommonSuf] using hp
  | cons w cs ih =>
    unfold shrinkToCommonSuf
    by_cases h : (w :: cs).isSuffixOf item = true
    · rw [if_pos h]
      exact hp
    · rw [if_neg h]
      rcases List.suffix_cons_iff.mp hp with he | hs
      · exfalso
        apply h
        exact List.isSuffixOf_iff_suffix.mpr (he ▸ hitem)
      · exact ih hs

theorem foldl_shrinkPre_spec (aw : List (List String)) :
    ∀ cp0 : List String,
      (aw.foldl shrinkToCommonPre cp0 <+: cp0)
      ∧ (∀ w ∈ aw, aw.foldl shrinkToCommonPre cp0 <+: w)
      ∧ (∀ p, p <+: cp0 → (∀ w ∈ aw, p <+: w) →
          p <+: aw.foldl shrinkToCommonPre cp0) := by
  induction aw with
  | nil =>
    intro cp0
    exact ⟨List.prefix_refl _, by simp, fun p hp _ => hp⟩
  | cons w rest ih =>
    intro cp0
    simp only [List.foldl_cons]
    obtain ⟨ih1, ih2, ih3⟩ := ih (shrinkToCommonPre cp0 w)
    refine ⟨ih1.trans (shrinkToCommonPre_pre cp0 w), ?_, ?_⟩
    · intro x hx
      rcases List.mem_cons.mp hx with hxw | hxr
      · exact hxw ▸ ih1.trans (shrinkToCommonPre_pre_item cp0 w)
      · exact ih2 x hxr
    · intro p hp hall
      refine ih3 p ?_ (fun x hx => hall x (List.mem_cons_of_mem w hx))
      exact shrinkToCommonPre_greatest cp0 w p hp (hall w (List.mem_cons_self w rest))

theorem foldl_shrinkSuf_spec (aw : List (List String)) :
    ∀ cs0 : List String,
      (aw.foldl shrinkToCommonSuf cs0 <:+ cs0)
      ∧ (∀ w ∈ aw, aw.foldl shrinkToCommonSuf cs0 <:+ w)
      ∧ (∀ p, p <:+ cs0 → (∀ w ∈ aw, p <:+ w) →
          p <:+ aw.foldl shrinkToCommonSuf cs0) := by
  induction aw with
  | nil =>
    intro cs0
    exact ⟨List.suffix_refl _, by simp, fun p hp _ => hp⟩
  | cons w rest ih =>
    intro cs0
    simp only [List.foldl_cons]
    obtain ⟨ih1, ih2, ih3⟩ := ih (shrinkToCommonSuf cs0 w)
    refine ⟨ih1.trans (shrinkToCommonSuf_suf cs0 w), ?_, ?_⟩
    · intro x hx
      rcases List.mem_cons.mp hx with hxw | hxr
      · exact hxw ▸ ih1.trans (shrinkToCommonSuf_suf_item cs0 w)
      · exact ih2 x hxr
    · intro p hp hall
      refine ih3 p ?_ (fun x hx => hall x (List.mem_cons_of_mem w hx))
      exact shrinkToCommonSuf_greatest cs0 w p hp (hall w (List.mem_cons_self w rest))

theorem codeCommonPre_spec (aw : List (List String)) (hne : aw ≠ []) :
    (∀ w ∈ aw, codeCommonPre aw <+: w)
    ∧ (∀ p, (∀ w ∈ aw, p <+: w) → p <+: codeCommonPre aw) := by
  match aw, hne with
  | hd :: tl, _ =>
    unfold codeCommonPre
    obtain ⟨h1, h2, h3⟩ := foldl_shrinkPre_spec (hd :: tl) hd
    exact ⟨h2, fun p hall =>
      h3 p (hall hd (List.mem_cons_self hd tl)) hall⟩

theorem codeCommonSuf_spec (aw : List (List String)) (hne : aw ≠ []) :
    (∀ w ∈ aw, codeCommonSuf aw <:+ w)
    ∧ (∀ p, (∀ w ∈ aw, p <:+ w) → p <:+ codeCommonSuf aw) := by
  match aw, hne with
  | hd :: tl, _ =>
    unfold codeCommonSuf
    obtain ⟨h1, h2, h3⟩ := foldl_shrinkSuf_spec (hd :: tl) hd
    exact ⟨h2, fun p hall =>
      h3 p (hall hd (List.mem_cons_self hd tl)) hall⟩

theorem zipWith_rename_names (l : List RustEnumValue) (ns : List String)
    (h : l.length = ns.length) :
    (List.zipWith (fun r nm => { r with name := sanitize_rust_identifier nm }) l ns).map
        (fun r => r.name)
      = ns.map sanitize_rust_identifier := by
  induction l generalizing ns with
  | nil =>
    cases ns with
    | nil => rfl
    | cons n ns => simp at h
  | cons a l ih =>
    cases ns with
    | nil => simp at h
    | cons n ns =>
      simp only [List.zipWith_cons_cons, List.map_cons]
      exact congrArg _ (ih ns (by simpa using h))

theorem prepare_eq_of_many (values : List CppEnumValue)
    (hlen : (valueToVariant values).length > 1) :
    prepare_enum_values values
      = sortByValue (applyShortNames (dedupedVariants values)) := by
  unfold prepare_enum_values withDummy
  rw [if_pos hlen, if_neg]
  have : (dedupedVariants values).length = (valueToVariant values).length := by
    simp [dedupedVariants]
  omega

/-- C7: for an enumeration with more than one surviving variant, the
short-name derivation computes exactly the longest common leading word
sequence and the longest common trailing word sequence of all variant
names (they are common to every name, and any other common leading or
trailing sequence is contained in them); when some stripped name would begin
with a digit the optimization is aborted and every variant keeps its
original case-converted name; otherwise the stripped, sanitized short names
are applied.  The no-overlap hypothesis excludes the inputs on which the
Rust slice `item[common_prefix.len()..item.len() - common_suffix.len()]`
panics. -/
theorem c7_short_name_derivation (values : List CppEnumValue)
    (hlen : (valueToVariant values).length > 1)
    (hnp : ∀ w ∈ enumAllWords (dedupedVariants values),
      (codeCommonPre (enumAllWords (dedupedVariants values))).length
        + (codeCommonSuf (enumAllWords (dedupedVariants values))).length ≤ w.length) :
    (∀ w ∈ enumAllWords (dedupedVariants values),
        codeCommonPre (enumAllWords (dedupedVariants values)) <+: w)
    ∧ (∀ p, (∀ w ∈ enumAllWords (dedupedVariants values), p <+: w) →
        p <+: codeCommonPre (enumAllWords (dedupedVariants values)))
    ∧ (∀ w ∈ enumAllWords (dedupedVariants values),
        codeCommonSuf (enumAllWords (dedupedVariants values)) <:+ w)
    ∧ (∀ p, (∀ w ∈ enumAllWords (dedupedVariants values), p <:+ w) →
        p <:+ codeCommonSuf (enumAllWords (dedupedVariants values)))
    ∧ ((∃ nm ∈ newNamesOf (dedupedVariants values),
          ∃ d, nm.data.head? = some d ∧ d.isDigit = true) →
        ((prepare_enum_values values).map (fun r => r.name)).Perm
          ((dedupedVariants values).map (fun r => r.name)))
    ∧ ((newNamesOf (dedupedVariants values)).any digitOrEmpty = false →
        ((prepare_enum_values values).map (fun r => r.name)).Perm
          ((newNamesOf (dedupedVariants values)).map sanitize_rust_identifier)) := by
  have hne : enumAllWords (dedupedVariants values) ≠ [] := by
    have hl : (enumAllWords (dedupedVariants values)).length
        = (valueToVariant values).length := by
      simp [enumAllWords, dedupedVariants]
    intro h0
    rw [h0] at hl
    simp at hl
    omega
  obtain ⟨hpre1, hpre2⟩ := codeCommonPre_spec _ hne
  obtain ⟨hsuf1, hsuf2⟩ := codeCommonSuf_spec _ hne
  have hprep := prepare_eq_of_many values hlen
  refine ⟨hpre1, hpre2, hsuf1, hsuf2, ?_, ?_⟩
  · rintro ⟨nm, hnm, d, hd, hdig⟩
    have hany : (newNamesOf (dedupedVariants values)).any digitOrEmpty = true :=
      List.any_eq_true.mpr ⟨nm, hnm, by simp [digitOrEmpty, hd, hdig]⟩
    have happ : applyShortNames (dedupedVariants values) = dedupedVariants values := by
      simp only [applyShortNames]
      rw [if_pos hany]
    rw [hprep, happ]
    exact (sortByValue_perm _).map (fun r => r.name)
  · intro hany
    have happ : applyShortNames (dedupedVariants values)
        = (dedupedVariants values).zipWith
            (fun r nm => { r with name := sanitize_rust_identifier nm })
            (newNamesOf (dedupedVariants values)) := by
      simp only [applyShortNames]
      rw [if_neg (by simp [hany])]
    rw [hprep, happ]
    have hlen2 : (dedupedVariants values).length
        = (newNamesOf (dedupedVariants values)).length := by
      simp [newNamesOf, enumAllWords]
    have hp := (sortByValue_perm ((dedupedVariants values).zipWith
        (fun r nm => { r with name := sanitize_rust_identifier nm })
        (newNamesOf (dedupedVariants values)))).map (fun r => r.name)
    rw [zipWith_rename_names _ _ hlen2] at hp
    exact hp

/-- Witness for the C7 theorem at `{ Base32 = 1, Base64 = 2 }`: the stripped
names would begin with digits, so the optimization is aborted. -/
theorem c7_short_name_derivation_witness :
    ((prepare_enum_values
        [{ name := "Base32", value := 1, doc := none },
         { name := "Base64", value := 2, doc := none }]).map (fun r => r.name)).Perm
      ((dedupedVariants
        [{ name := "Base32", value := 1, doc := none },
         { name := "Base64", value := 2, doc := none }]).map (fun r => r.name)) :=
  (c7_short_name_derivation
      [{ name := "Base32", value := 1, doc := none },
       { name := "Base64", value := 2, doc := none }]
      (by decide) (by decide)).2.2.2.2.1
    ⟨"32", by decide, '3', by decide, by decide⟩

theorem valueToVariant_names_aux (values : List CppEnumValue) :
    ∀ (m : List (Int × RustEnumValue)), ∀ p ∈ values.foldl insertEnumValue m,
      (∃ q ∈ m, p.2.name = q.2.name)
      ∨ ∃ v ∈ values, p.2.name = sanitize_rust_identifier (toClassCase v.name) := by
  induction values with
  | nil =>
    intro m p hp
    exact Or.inl ⟨p, hp, rfl⟩
  | cons v vs ih =>
    intro m p hp
    simp only [List.foldl_cons] at hp
    rcases ih (insertEnumValue m v) p hp with ⟨q, hq, hname⟩ | ⟨v', hv', hname⟩
    · unfold insertEnumValue at hq
      by_cases hocc : m.any (fun p => p.1 = v.value) = true
      · rw [if_pos hocc] at hq
        obtain ⟨q', hq', hqe⟩ := List.mem_map.mp hq
        refine Or.inl ⟨q', hq', ?_⟩
        rw [hname, ← hqe]
        by_cases hqv : q'.1 = v.value
        · simp [hqv]
        · simp [hqv]
      · rw [if_neg hocc] at hq
        rcases List.mem_append.mp hq with hqm | hqn
        · exact Or.inl ⟨q, hqm, hname⟩
        · have hqv : q = (v.value,
              { name := sanitize_rust_identifier (toClassCase v.name),
                value := v.value,
                cppDocs := [{ variantName := v.name, doc := v.doc }],
                isDummy := false }) := by
            simpa using hqn
          refine Or.inr ⟨v, List.mem_cons_self v vs, ?_⟩
          rw [hname, hqv]
    · exact Or.inr ⟨v', List.mem_cons_of_mem v hv', hname⟩

theorem dedupedVariants_names (values : List CppEnumValue) :
    ∀ r ∈ dedupedVariants values,
      ∃ v ∈ values, r.name = sanitize_rust_identifier (toClassCase v.name) := by
  intro r hr
  unfold dedupedVariants at hr
  obtain ⟨p, hp, hpr⟩ := List.mem_map.mp hr
  rcases valueToVariant_names_aux values [] p hp
    with ⟨q, hq, _⟩ | ⟨v, hv, hname⟩
  · simp at hq
  · exact ⟨v, hv, hpr ▸ hname⟩

theorem sanitize_ne_empty (s : String) (hs : s ≠ "") :
    sanitize_rust_identifier s ≠ "" := by
  simp only [sanitize_rust_identifier]
  split
  · intro hcon
    have hlen : (s ++ "_").length = 0 := by rw [hcon]; rfl
    rw [String.length_append] at hlen
    simp at hlen
    exact absurd hlen.2 (by decide)
  · exact hs

theorem ne_empty_of_head (nm : String) (c : Char)
    (h : nm.data.head? = some c) : nm ≠ "" := by
  intro he
  rw [he] at h
  have hd : ("" : String).data = [] := rfl
  rw [hd] at h
  exact Option.noConfusion h

theorem mem_zipWith_rename (l : List RustEnumValue) (ns : List String)
    (r : RustEnumValue)
    (h : r ∈ List.zipWith (fun r nm => { r with name := sanitize_rust_identifier nm }) l ns) :
    ∃ a nm, a ∈ l ∧ nm ∈ ns ∧
      r = { a with name := sanitize_rust_identifier nm } := by
  induction l generalizing ns with
  | nil => simp at h
  | cons a l ih =>
    cases ns with
    | nil => simp at h
    | cons n ns =>
      simp only [List.zipWith_cons_cons, List.mem_cons] at h
      rcases h with he | hmem
      · exact ⟨a, n, List.mem_cons_self a l, List.mem_cons_self n ns, he⟩
      · obtain ⟨a', nm', ha', hn', he'⟩ := ih ns hmem
        exact ⟨a', nm', List.mem_cons_of_mem _ ha', List.mem_cons_of_mem _ hn', he'⟩

/-- C10: the enum short-name optimization also aborts when stripping the
common word sequences would leave a variant with an empty name — the
concrete input `{ NonRecursive = 1, Recursive = 2 }` is emitted with its
names unchanged — and, provided every input variant name case-converts to a
non-empty name, every emitted variant name is non-empty. -/
theorem c10_nonempty_variant_names (values : List CppEnumValue)
    (h : ∀ v ∈ values, toClassCase v.name ≠ "") :
    (∀ r ∈ prepare_enum_values values, r.name ≠ "")
    ∧ (prepare_enum_values
        [{ name := "NonRecursive", value := 1, doc := none },
         { name := "Recursive", value := 2, doc := none }]).map (fun r => r.name)
      = ["NonRecursive", "Recursive"] := by
  refine ⟨?_, by decide⟩
  intro r hr
  unfold prepare_enum_values at hr
  have hr' := (sortByValue_perm _).mem_iff.mp hr
  have hwd : ∀ x ∈ withDummy values, x.name ≠ "" := by
    intro x hx
    unfold withDummy at hx
    split at hx
    · rcases List.mem_append.mp hx with hxm | hxd
      · obtain ⟨v, hv, hn⟩ := dedupedVariants_names values x hxm
        rw [hn]
        exact sanitize_ne_empty _ (h v hv)
      · have hxe : x.name = "_Invalid" := by
          have := List.mem_singleton.mp hxd
          rw [this]
        rw [hxe]
        decide
    · obtain ⟨v, hv, hn⟩ := dedupedVariants_names values x hx
      rw [hn]
      exact sanitize_ne_empty _ (h v hv)
  split at hr'
  · simp only [applyShortNames] at hr'
    split at hr'
    · exact hwd r hr'
    · rename_i hany
      obtain ⟨a, nm, ha, hnm, hre⟩ := mem_zipWith_rename _ _ _ hr'
      have hfalse : digitOrEmpty nm = false := by
        have hany' : (newNamesOf (withDummy values)).any digitOrEmpty = false := by
          simpa using hany
        simpa using List.any_eq_false.mp hany' nm hnm
      have hnm_ne : nm ≠ "" := by
        unfold digitOrEmpty at hfalse
        cases hh : nm.data.head? with
        | none => rw [hh] at hfalse; simp at hfalse
        | some c => exact ne_empty_of_head nm c hh
      rw [hre]
      simpa using sanitize_ne_empty nm hnm_ne
  · exact hwd r hr'

/-- Witness for the C10 theorem at the two-variant enumeration
`{ A = 1, B = 2 }`. -/
theorem c10_nonempty_variant_names_witness :
    ({ name := "A", value := 1,
       cppDocs := [{ variantName := "A", doc := none }],
       isDummy := false } : RustEnumValue).name ≠ "" :=
  (c10_nonempty_variant_names
      [{ name := "A", value := 1, doc := none },
       { name := "B", value := 2, doc := none }] (by decide)).1
    { name := "A", value := 1,
      cppDocs := [{ variantName := "A", doc := none }], isDummy := false }
    (by decide)

/-- C9: the claim states that `"Qt3DWindow"` is left unchanged under both
conversions.  Counterexample: the word-joined (snake) conversion with the
`["q", "Q", "Qt"]` prefix list maps it to `"qt_3d_window"`, which differs
from `"Qt3DWindow"` — exactly as the unit test
`remove_prefix_and_convert_case_test` of `rust_generator.rs` asserts. -/
theorem c9_snake_changes_counterexample :
    remove_prefix_and_convert_case "Qt3DWindow" Case.Snake qtPrefixes
        = "qt_3d_window"
    ∧ remove_prefix_and_convert_case "Qt3DWindow" Case.Snake qtPrefixes
        ≠ "Qt3DWindow" := by
  refine ⟨by decide, by decide⟩

/-- C9 (amended): `"QDirIterator"` yields type-case name `"DirIterator"`
and word-joined name `"dir_iterator"`; `"Qt3DWindow"` keeps its prefix under
both conversions because a digit immediately follows the candidate prefix —
the type-case conversion leaves it unchanged, while the word-joined
conversion yields `"qt_3d_window"`, in both cases the same result as with an
empty prefix list. -/
theorem c9_digit_blocks_strip :
    remove_prefix_and_convert_case "QDirIterator" Case.Class qtPrefixes
        = "DirIterator"
    ∧ remove_prefix_and_convert_case "QDirIterator" Case.Snake qtPrefixes
        = "dir_iterator"
    ∧ remove_prefix_and_convert_case "Qt3DWindow" Case.Class qtPrefixes
        = "Qt3DWindow"
    ∧ remove_prefix_and_convert_case "Qt3DWindow" Case.Snake qtPrefixes
        = "qt_3d_window"
    ∧ remove_prefix_and_convert_case "Qt3DWindow" Case.Class qtPrefixes
        = remove_prefix_and_convert_case "Qt3DWindow" Case.Class []
    ∧ remove_prefix_and_convert_case "Qt3DWindow" Case.Snake qtPrefixes
        = remove_prefix_and_convert_case "Qt3DWindow" Case.Snake [] := by
  refine ⟨by decide, by decide, by decide, by decide, by decide, by decide⟩

end CppToRust
